import Mathlib

/-!
Shallow embedding of the LSP client core of the Rust-Text-Editor-Gui
repository (src/lsp.rs, with the buffer-registry pieces of src/lib.rs and
the version counter of src/buffer.rs), together with theorems settling the
frozen claims about it.

Conventions:
* URIs are modelled as `String` (the code's `Url` is used only for equality,
  lowercasing and storage here).
* Machine counters (`AtomicU64`, `AtomicI32`) are modelled as `Nat`/`Int`
  with explicit wrap-around where the code's `fetch_add` can wrap.
* Fallible code returns `Option`, and places where the code calls
  `.unwrap()`/`unimplemented!`/`assert_eq!` on a failing value are modelled
  by an explicit `panicked` outcome.
-/

/-- `LspLang` (src/lsp.rs): the languages the editor distinguishes. -/
inductive LspLang where
  | rust
  | json
  | python
  | plainText
deriving DecidableEq, Repr

/-- `SentRequest` (src/lsp.rs): what was asked, and for which document. -/
structure SentRequest where
  method : String
  uri : String
deriving DecidableEq, Repr

/-- `LspSystem` (src/lsp.rs): the request registry. `counter` is the
`AtomicU64` id allocator; `requests` is the `HashMap<u64, SentRequest>`,
modelled as an association list where the first matching key wins (inserts
prepend, so a re-insert of the same key shadows the old entry exactly as a
`HashMap` overwrite does). The `clients` map is irrelevant to the claims
and omitted. -/
structure LspSystem where
  counter : Nat
  requests : List (Nat × SentRequest)
deriving DecidableEq, Repr

/-- `LspSystem::default()`: counter starts at 0, no pending requests. -/
def LspSystem.empty : LspSystem := ⟨0, []⟩

/-- `LspSystem::new_request` (src/lsp.rs:101-105): `fetch_add(1)` on the
`AtomicU64` counter returns the old value, wrapping at 2^64; the returned
id is inserted into the registry with the given method and uri. -/
def LspSystem.new_request (s : LspSystem) (method uri : String) :
    Nat × LspSystem :=
  (s.counter,
   { counter := (s.counter + 1) % 2 ^ 64
     requests := (s.counter, ⟨method, uri⟩) :: s.requests })

/-- First binding of a key in the registry association list. -/
def lookupReq : List (Nat × SentRequest) → Nat → Option SentRequest
  | [], _ => none
  | (k, r) :: rest, id => if k = id then some r else lookupReq rest id

/-- Remove every binding of a key (a `HashMap::remove`). -/
def removeReq : List (Nat × SentRequest) → Nat → List (Nat × SentRequest)
  | [], _ => []
  | (k, r) :: rest, id =>
    if k = id then removeReq rest id else (k, r) :: removeReq rest id

/-- `LspSystem::get_request` (src/lsp.rs:107-109): `HashMap::remove`,
returning the removed entry (if any) and the updated registry. -/
def LspSystem.get_request (s : LspSystem) (id : Nat) :
    Option SentRequest × LspSystem :=
  (lookupReq s.requests id, { s with requests := removeReq s.requests id })

/-- The correlation id the client uses for the `initialize` request
(src/lsp.rs:298: `send_request_async_with_id::<_, Initialize>(stdin, 0, init)`). -/
def initializeId : Nat := 0

/-- A sequence of `new_request` calls (each with its method and uri),
returning the list of ids handed out, in order, and the final state. -/
def runNewRequests (s : LspSystem) : List (String × String) → List Nat × LspSystem
  | [] => ([], s)
  | (m, u) :: rest =>
    let p := s.new_request m u
    let q := runNewRequests p.2 rest
    (p.1 :: q.1, q.2)

theorem runNewRequests_counter (l : List (String × String)) (s : LspSystem)
    (h : s.counter + l.length ≤ 2 ^ 64) :
    (runNewRequests s l).1 = List.range' s.counter l.length := by
  induction l generalizing s with
  | nil => simp [runNewRequests]
  | cons p rest ih =>
    obtain ⟨m, u⟩ := p
    have hcnt : (s.new_request m u).2.counter = (s.counter + 1) % 2 ^ 64 := rfl
    show (s.new_request m u).1 :: (runNewRequests (s.new_request m u).2 rest).1 =
        List.range' s.counter (rest.length + 1)
    cases rest with
    | nil => simp [runNewRequests, List.range'_succ, LspSystem.new_request]
    | cons q rest2 =>
      have hlt : s.counter + 1 < 2 ^ 64 := by
        have := h
        simp only [List.length_cons] at this
        omega
      have hmod : (s.counter + 1) % 2 ^ 64 = s.counter + 1 := Nat.mod_eq_of_lt hlt
      rw [ih]
      · rw [hcnt, hmod, List.range'_succ]
        rfl
      · rw [hcnt, hmod]
        have := h
        simp only [List.length_cons] at this ⊢
        omega

/-- C2 counterexample: the claim says no id returned by `new_request` ever
equals the initialize sentinel. But `LspSystem` derives `Default`, so the
`AtomicU64` counter starts at 0 and the very first `new_request` call
returns id 0, which is exactly the sentinel used for `initialize`. -/
theorem first_request_id_equals_sentinel_cex :
    (LspSystem.empty.new_request "textDocument/completion" "file:///a.rs").1
      = initializeId := rfl

/-- C2 amended: from a fresh registry, the ids returned by a sequence of
`new_request` calls are 0, 1, 2, ... in order (below the u64 wrap), so
the id returned by the FIRST call equals the initialize sentinel 0 and
every later call returns an id distinct from the sentinel. -/
theorem request_ids_vs_sentinel_amended (l : List (String × String))
    (h : l.length ≤ 2 ^ 64) :
    (runNewRequests LspSystem.empty l).1 = List.range l.length ∧
    (∀ i, (hi : i < l.length) →
      ((runNewRequests LspSystem.empty l).1[i]? = some initializeId ↔ i = 0)) := by
  have hids := runNewRequests_counter l LspSystem.empty (by simpa [LspSystem.empty] using h)
  have hrange : List.range' (LspSystem.empty.counter) l.length = List.range l.length := by
    simp [LspSystem.empty, List.range_eq_range']
  rw [hids, hrange]
  refine ⟨rfl, fun i hi => ?_⟩
  rw [List.getElem?_range hi]
  simp [initializeId]

theorem request_ids_vs_sentinel_amended_witness :
    (runNewRequests LspSystem.empty [("textDocument/completion", "file:///a.rs"),
      ("rust-analyzer/inlayHints", "file:///b.rs")]).1 = List.range 2 :=
  (request_ids_vs_sentinel_amended
    [("textDocument/completion", "file:///a.rs"),
     ("rust-analyzer/inlayHints", "file:///b.rs")] (by norm_num)).1

/-! ## Completion items and their conversion (src/lsp.rs:487-550) -/

/-- An LSP position (`lsp_types::Position`). -/
structure Position where
  line : Nat
  character : Nat
deriving DecidableEq, Repr

/-- An LSP range (`lsp_types::Range`); the `end` field is named `endPos`
because `end` is a Lean keyword. -/
structure LspRange where
  start : Position
  endPos : Position
deriving DecidableEq, Repr

/-- The editor's own `TextEdit` (src/lsp.rs:184-188), also standing in for
`lsp_types::TextEdit`, which has the same two fields. -/
structure TextEdit where
  range : LspRange
  new_text : String
deriving DecidableEq, Repr

/-- `lsp_types::InsertReplaceEdit` (the payload of the completion text-edit
variant the code leaves `unimplemented!`). -/
structure InsertReplaceEdit where
  new_text : String
  insert : LspRange
  replace : LspRange
deriving DecidableEq, Repr

/-- `lsp_types::CompletionTextEdit`. -/
inductive CompletionTextEdit where
  | edit (e : TextEdit)
  | insertAndReplace (e : InsertReplaceEdit)
deriving DecidableEq, Repr

/-- `lsp_types::CompletionItem`, restricted to the fields the conversion in
src/lsp.rs reads (`label`, `insert_text`, `text_edit`,
`additional_text_edits`); the remaining fields ride along unread inside
`original_item` in the source and are omitted here. -/
structure CompletionItem where
  label : String
  insert_text : Option String
  text_edit : Option CompletionTextEdit
  additional_text_edits : Option (List TextEdit)
deriving DecidableEq, Repr

/-- `CompletionData` (src/lsp.rs:178-182). -/
inductive CompletionData where
  | simple (s : String)
  | edits (es : List TextEdit)
deriving DecidableEq, Repr

/-- `LspCompletion` (src/lsp.rs:171-176). -/
structure LspCompletion where
  original_item : CompletionItem
  label : String
  data : CompletionData
deriving DecidableEq, Repr

/-- Outcome of `convert_completion`: the source returns
`Option<LspCompletion>` but can also panic (`unimplemented!`) on an
insert-and-replace text edit, so the model distinguishes all three. -/
inductive ConvertResult where
  | panicked
  | skipped
  | ok (c : LspCompletion)
deriving DecidableEq, Repr

/-- `convert_completion` (src/lsp.rs:515-550): `insert_text` wins if
present; otherwise a plain text edit (followed by the additional edits in
server order) yields an `Edits` completion; an insert-and-replace edit hits
`unimplemented!`; an item with neither field yields `None`. -/
def convert_completion (c : CompletionItem) : ConvertResult :=
  match c.insert_text with
  | some insert_text => .ok ⟨c, c.label, .simple insert_text⟩
  | none =>
    match c.text_edit with
    | some (.edit e) =>
      let edits := [TextEdit.mk e.range e.new_text]
      let edits :=
        match c.additional_text_edits with
        | some additional =>
          edits ++ additional.map (fun ed => TextEdit.mk ed.range ed.new_text)
        | none => edits
      .ok ⟨c, c.label, .edits edits⟩
    | some (.insertAndReplace _) => .panicked
    | none => .skipped

/-- `convert_completions` (src/lsp.rs:487-492): a `filter_map` over
`convert_completion`; `none` models the whole call panicking because one
item hit `unimplemented!`. -/
def convert_completions : List CompletionItem → Option (List LspCompletion)
  | [] => some []
  | c :: rest =>
    match convert_completion c with
    | .panicked => none
    | .skipped => convert_completions rest
    | .ok lc => (convert_completions rest).map (lc :: ·)

/-- C9 counterexample: the claim says an item with no `insert_text` but a
`text_edit` becomes an `Edits` completion. For the insert-and-replace
variant of `text_edit` the code instead hits
`unimplemented!("insert and replace")` and panics, producing no completion. -/
theorem insert_and_replace_panics_cex :
    convert_completion
      ⟨"foo", none,
        some (.insertAndReplace ⟨"bar", ⟨⟨0, 0⟩, ⟨0, 1⟩⟩, ⟨⟨0, 0⟩, ⟨0, 2⟩⟩⟩),
        none⟩ = .panicked := rfl

/-- C9 amended: `insert_text` always wins (even over a present `text_edit`);
with no `insert_text`, a PLAIN (single-range) text edit becomes an `Edits`
completion of that edit followed by the additional edits in server order,
while an insert-and-replace text edit panics (`unimplemented!`); an item
with neither field yields no completion and is silently omitted from every
converted completion list. -/
theorem convert_completion_amended (c : CompletionItem)
    (l : List CompletionItem) :
    (∀ s, c.insert_text = some s →
      convert_completion c = .ok ⟨c, c.label, .simple s⟩) ∧
    (∀ e, c.insert_text = none → c.text_edit = some (.edit e) →
      convert_completion c =
        .ok ⟨c, c.label, .edits (e :: c.additional_text_edits.getD [])⟩) ∧
    (∀ e, c.insert_text = none → c.text_edit = some (.insertAndReplace e) →
      convert_completion c = .panicked) ∧
    (c.insert_text = none → c.text_edit = none →
      convert_completion c = .skipped ∧
      convert_completions (c :: l) = convert_completions l) := by
  refine ⟨?_, ?_, ?_, ?_⟩
  · intro s hs
    simp [convert_completion, hs]
  · intro e h1 h2
    cases hadd : c.additional_text_edits with
    | none => simp [convert_completion, h1, h2, hadd]
    | some add =>
      simp [convert_completion, h1, h2, hadd]
  · intro e h1 h2
    simp [convert_completion, h1, h2]
  · intro h1 h2
    constructor
    · simp [convert_completion, h1, h2]
    · simp [convert_completions, convert_completion, h1, h2]

theorem convert_completion_amended_witness :
    convert_completion
      ⟨"foo", none, some (.edit ⟨⟨⟨1, 2⟩, ⟨1, 5⟩⟩, "bar"⟩),
        some [⟨⟨⟨0, 0⟩, ⟨0, 3⟩⟩, "use x;"⟩]⟩ =
      .ok ⟨⟨"foo", none, some (.edit ⟨⟨⟨1, 2⟩, ⟨1, 5⟩⟩, "bar"⟩),
        some [⟨⟨⟨0, 0⟩, ⟨0, 3⟩⟩, "use x;"⟩]⟩, "foo",
        .edits [⟨⟨⟨1, 2⟩, ⟨1, 5⟩⟩, "bar"⟩, ⟨⟨⟨0, 0⟩, ⟨0, 3⟩⟩, "use x;"⟩]⟩ :=
  (convert_completion_amended
    ⟨"foo", none, some (.edit ⟨⟨⟨1, 2⟩, ⟨1, 5⟩⟩, "bar"⟩),
      some [⟨⟨⟨0, 0⟩, ⟨0, 3⟩⟩, "use x;"⟩]⟩ []).2.1
    ⟨⟨⟨1, 2⟩, ⟨1, 5⟩⟩, "bar"⟩ rfl rfl

/-! ## Buffers, diagnostics and inlay hints
(src/lib.rs:127-234, src/buffer.rs:17-23 and 103-111, src/lsp.rs:469-485
and 726-752) -/

/-- `lsp_types::DiagnosticSeverity`. -/
inductive DiagnosticSeverity where
  | error
  | warning
  | information
  | hint
deriving DecidableEq, Repr

/-- The slice of `lsp_types::Location` the diagnostics router reads:
`info.location.uri`. -/
structure DiagLocation where
  uri : String
deriving DecidableEq, Repr

/-- `lsp_types::DiagnosticRelatedInformation`. -/
structure DiagnosticRelatedInformation where
  location : DiagLocation
  message : String
deriving DecidableEq, Repr

/-- An inbound `lsp_types::Diagnostic`, restricted to the fields
`process_diagnostics` reads. -/
structure WireDiagnostic where
  range : LspRange
  severity : Option DiagnosticSeverity
  message : String
  related_information : Option (List DiagnosticRelatedInformation)
deriving DecidableEq, Repr

/-- `crate::buffer::Diagnostic` (src/buffer.rs:17-21): what a buffer
stores. The source converts the LSP range to rope character bounds via
`IntoWithBuffer` before storing; that conversion is a pure
coordinate change on the buffer's current text, irrelevant to routing and
clearing, and is modelled here by keeping the range itself. -/
structure StoredDiagnostic where
  bounds : LspRange
  severity : DiagnosticSeverity
  message : String
deriving DecidableEq, Repr

/-- `lsp_ext::InlayKind` (src/lsp_ext.rs). -/
inductive InlayKind where
  | typeHint
  | parameterHint
  | chainingHint
deriving DecidableEq, Repr

/-- `lsp_ext::InlayHint` (src/lsp_ext.rs). -/
structure InlayHint where
  range : LspRange
  kind : InlayKind
  label : String
deriving DecidableEq, Repr

/-- A buffer as the LSP layer sees it: `BufferData` of src/lib.rs
(`id`, `source` path URI) flattened together with the `Buffer` fields it
reaches into (`version`, text, `diagnostics`, `inlay_hints`).
`uri` is `some` for `BufferSource::File` buffers (the lowercased-URI
comparisons below use it) and `none` for `BufferSource::Text` buffers,
which `get_by_uri` skips. The hint anchor index is kept as the anchor
`Position` (the source converts it to a rope index, a pure coordinate
change on the current text). -/
structure BufferData where
  id : Nat
  uri : Option String
  version : Int
  text : String
  diagnostics : List StoredDiagnostic
  inlay_hints : List (Position × InlayHint)
deriving DecidableEq, Repr

/-- `str::to_lowercase` as used on URIs (src/lib.rs:216, 227): per-char
lowercasing, defined structurally on the character list (the Unicode
multi-char special cases do not arise in URIs). -/
def strLower (s : String) : String :=
  String.mk (s.data.map Char.toLower)

/-- The lowercased-URI match of `Buffers::get_by_uri{,_mut}`
(src/lib.rs:213-233): only file buffers participate, compared by
`to_lowercase()` on both sides. -/
def uriMatches (b : BufferData) (uri : String) : Bool :=
  match b.uri with
  | some p => strLower p = strLower uri
  | none => false

/-- `Buffers::get_by_uri` (src/lib.rs:213-222): first match in iteration
order wins (the `HashMap` iteration order is modelled by the list order). -/
def getByUri : List BufferData → String → Option BufferData
  | [], _ => none
  | b :: rest, uri => if uriMatches b uri then some b else getByUri rest uri

/-- `Buffers::get_by_uri_mut` followed by a mutation: update the first
matching buffer in place. -/
def updateByUri : List BufferData → String → (BufferData → BufferData) → List BufferData
  | [], _, _ => []
  | b :: rest, uri, f =>
    if uriMatches b uri then f b :: rest else b :: updateByUri rest uri f

/-- `Buffers::get` / `buffers.get(buffer_id)` (src/lib.rs:196-198): lookup
by buffer id. -/
def findById : List BufferData → Nat → Option BufferData
  | [], _ => none
  | b :: rest, i => if b.id = i then some b else findById rest i

/-- Mutation through `Buffers::get_mut`-style access: update the first
buffer with the given id. -/
def updateById : List BufferData → Nat → (BufferData → BufferData) → List BufferData
  | [], _, _ => []
  | b :: rest, i, f => if b.id = i then f b :: rest else b :: updateById rest i f

/-- The URI a diagnostic is routed by (src/lsp.rs:730-736): start from the
notification's own URI and overwrite it with `info.location.uri` for EACH
related-information entry in order — so the last entry wins, and an empty
or absent list leaves the notification URI. -/
def effectiveUri (default_uri : String) (d : WireDiagnostic) : String :=
  match d.related_information with
  | none => default_uri
  | some infos => infos.foldl (fun _ info => info.location.uri) default_uri

/-- Building the stored diagnostic (src/lsp.rs:744-749): severity defaults
to `ERROR` when the server sent none. -/
def convertDiag (d : WireDiagnostic) : StoredDiagnostic :=
  ⟨d.range, d.severity.getD .error, d.message⟩

/-- One iteration of the `for diagnostic in diagnostics` loop of
`process_diagnostics` (src/lsp.rs:730-751): route by effective URI; if no
buffer matches, do nothing; otherwise clear that buffer's diagnostics if
its id is not yet in `cleared` (recording it), then append the converted
diagnostic. -/
def processOneDiagnostic (default_uri : String)
    (st : List BufferData × List Nat) (d : WireDiagnostic) :
    List BufferData × List Nat :=
  let uri := effectiveUri default_uri d
  match getByUri st.1 uri with
  | none => st
  | some b =>
    if st.2.contains b.id then
      (updateByUri st.1 uri
        (fun bb => { bb with diagnostics := bb.diagnostics ++ [convertDiag d] }),
       st.2)
    else
      (updateByUri st.1 uri
        (fun bb => { bb with diagnostics := [convertDiag d] }),
       st.2 ++ [b.id])

/-- `process_diagnostics` (src/lsp.rs:726-752): fold the per-diagnostic
step over the batch, starting with an empty `cleared` list. -/
def process_diagnostics (default_uri : String)
    (diagnostics : List WireDiagnostic) (bufs : List BufferData) :
    List BufferData :=
  (diagnostics.foldl (processOneDiagnostic default_uri) (bufs, [])).1

/-- The id of the buffer a diagnostic is routed to in a given buffer list
(or `none` when no buffer matches its effective URI). -/
def targetId (bufs : List BufferData) (default_uri : String)
    (d : WireDiagnostic) : Option Nat :=
  (getByUri bufs (effectiveUri default_uri d)).map (fun b => b.id)

/-- The sub-batch of diagnostics routed to the buffer with id `x`,
relative to the buffer list the batch started from. -/
def routedTo (bufs : List BufferData) (default_uri : String)
    (diagnostics : List WireDiagnostic) (x : Nat) : List WireDiagnostic :=
  diagnostics.filter (fun d => decide (targetId bufs default_uri d = some x))

theorem foldl_relatedInfo_getLast (l : List DiagnosticRelatedInformation)
    (du : String) :
    l.foldl (fun _ info => info.location.uri) du =
      ((l.map (fun i => i.location.uri)).getLast?).getD du := by
  induction l generalizing du with
  | nil => rfl
  | cons i t ih =>
    cases t with
    | nil => rfl
    | cons j t2 =>
      show (j :: t2).foldl (fun _ info => info.location.uri) i.location.uri = _
      rw [ih i.location.uri]
      have hne : (j.location.uri :: t2.map (fun i => i.location.uri)) ≠ [] := by
        simp
      obtain ⟨z, hz⟩ := Option.isSome_iff_exists.mp
        (List.getLast?_isSome.mpr hne)
      simp [List.getLast?_cons_cons] at hz ⊢
      rw [hz]
      rfl

/-- C4 counterexample: the claim says, when related information is present,
the FIRST related-information location decides the document. The loop in
`process_diagnostics` overwrites the routing URI with every entry, so the
LAST one wins: here a diagnostic published against `a.rs` with related
locations `[b.rs, c.rs]` lands on `c.rs`, while the claim says `b.rs`. -/
theorem related_info_last_wins_cex :
    process_diagnostics "file:///a.rs"
      [⟨⟨⟨0, 0⟩, ⟨0, 1⟩⟩, some .error, "mismatched types",
        some [⟨⟨"file:///b.rs"⟩, "rel1"⟩, ⟨⟨"file:///c.rs"⟩, "rel2"⟩]⟩]
      [⟨1, some "file:///a.rs", 0, "", [], []⟩,
       ⟨2, some "file:///b.rs", 0, "", [], []⟩,
       ⟨3, some "file:///c.rs", 0, "", [], []⟩] =
    [⟨1, some "file:///a.rs", 0, "", [], []⟩,
     ⟨2, some "file:///b.rs", 0, "", [], []⟩,
     ⟨3, some "file:///c.rs", 0, "",
       [⟨⟨⟨0, 0⟩, ⟨0, 1⟩⟩, .error, "mismatched types"⟩], []⟩] := by
  decide

/-- C4 amended: a diagnostic is attached to the document named by the LAST
related-information location when the related-information list is present
and non-empty, and by the notification's own URI otherwise; in particular a
diagnostic on document A with a single related location in document B is
attached to B, not A, and A's existing diagnostics stay untouched. -/
theorem diagnostic_routing_amended :
    (∀ (default_uri : String) (d : WireDiagnostic),
      effectiveUri default_uri d =
        (((d.related_information.getD []).map
          (fun i => i.location.uri)).getLast?).getD default_uri) ∧
    process_diagnostics "file:///a.rs"
      [⟨⟨⟨0, 0⟩, ⟨0, 1⟩⟩, none, "m", some [⟨⟨"file:///b.rs"⟩, "rel"⟩]⟩]
      [⟨1, some "file:///a.rs", 0, "",
        [⟨⟨⟨2, 2⟩, ⟨2, 3⟩⟩, .warning, "old"⟩], []⟩,
       ⟨2, some "file:///b.rs", 0, "", [], []⟩] =
    [⟨1, some "file:///a.rs", 0, "",
      [⟨⟨⟨2, 2⟩, ⟨2, 3⟩⟩, .warning, "old"⟩], []⟩,
     ⟨2, some "file:///b.rs", 0, "",
       [⟨⟨⟨0, 0⟩, ⟨0, 1⟩⟩, .error, "m"⟩], []⟩] := by
  constructor
  · intro default_uri d
    cases h : d.related_information with
    | none => simp [effectiveUri, h]
    | some infos => simp [effectiveUri, h, foldl_relatedInfo_getLast]
  · decide

/-! ### Helper lemmas for the per-batch replacement property -/

/-- All fields of a buffer except `diagnostics`, preserved by
`process_diagnostics`. -/
def sameDoc (a b : BufferData) : Prop :=
  b.id = a.id ∧ b.uri = a.uri ∧ b.version = a.version ∧ b.text = a.text ∧
  b.inlay_hints = a.inlay_hints

theorem uriMatches_congr {a b : BufferData} (h : b.uri = a.uri)
    (u : String) : uriMatches b u = uriMatches a u := by
  simp [uriMatches, h]

theorem getByUri_mem {l : List BufferData} {u : String} {b : BufferData}
    (h : getByUri l u = some b) : b ∈ l := by
  induction l with
  | nil => simp [getByUri] at h
  | cons a t ih =>
    by_cases hm : uriMatches a u
    · simp [getByUri, hm] at h
      simp [h]
    · simp only [getByUri, hm, Bool.false_eq_true, if_false] at h
      exact List.mem_cons_of_mem _ (ih h)

theorem getByUri_rel {R : BufferData → BufferData → Prop}
    (hR : ∀ a b, R a b → b.uri = a.uri) :
    ∀ {l₁ l₂ : List BufferData}, List.Forall₂ R l₁ l₂ → ∀ u : String,
      (getByUri l₁ u = none ∧ getByUri l₂ u = none) ∨
      ∃ a b, getByUri l₁ u = some a ∧ getByUri l₂ u = some b ∧ R a b := by
  intro l₁ l₂ h
  induction h with
  | nil =>
    intro u
    exact Or.inl ⟨rfl, rfl⟩
  | cons h1 h2 ih =>
    rename_i a b t₁ t₂
    intro u
    have hmb : uriMatches b u = uriMatches a u := uriMatches_congr (hR _ _ h1) u
    by_cases hm : uriMatches a u
    · exact Or.inr ⟨a, b, by simp [getByUri, hm], by simp [getByUri, hmb, hm], h1⟩
    · rcases ih u with ⟨hn1, hn2⟩ | ⟨x, y, hx, hy, hxy⟩
      · exact Or.inl ⟨by simp [getByUri, hm, hn1], by simp [getByUri, hmb, hm, hn2]⟩
      · exact Or.inr ⟨x, y, by simp [getByUri, hm, hx], by simp [getByUri, hmb, hm, hy], hxy⟩

theorem forall2_imp_notmem {R R2 : BufferData → BufferData → Prop}
    {a0 : BufferData} {l0 : List BufferData} :
    ∀ {l₁ l₂ : List BufferData}, List.Forall₂ R l₁ l₂ → a0 ∉ l₁ →
      (∀ a ∈ l₁, a ∈ l0) →
      (∀ a b, a ∈ l0 → R a b → a ≠ a0 → R2 a b) → List.Forall₂ R2 l₁ l₂ := by
  intro l₁ l₂ h
  induction h with
  | nil => intro _ _ _; exact .nil
  | cons h1 h2 ih =>
    rename_i a b t₁ t₂
    intro hnm hsub himp
    refine .cons (himp _ _ (hsub a (List.mem_cons_self _ _)) h1 fun he => hnm ?_)
      (ih (fun hm => hnm ?_) (fun x hx => hsub x (List.mem_cons_of_mem _ hx)) himp)
    · rw [he]; exact List.mem_cons_self _ _
    · exact List.mem_cons_of_mem _ hm

theorem updateByUri_rel {R R2 : BufferData → BufferData → Prop} {u : String}
    {f : BufferData → BufferData} {a0 : BufferData} {l0 : List BufferData}
    (hR : ∀ a b, R a b → b.uri = a.uri) :
    ∀ {l₁ l₂ : List BufferData}, List.Forall₂ R l₁ l₂ → l₁.Nodup →
      (∀ a ∈ l₁, a ∈ l0) →
      getByUri l₁ u = some a0 →
      (∀ b, R a0 b → R2 a0 (f b)) →
      (∀ a b, a ∈ l0 → R a b → a ≠ a0 → R2 a b) →
      List.Forall₂ R2 l₁ (updateByUri l₂ u f) := by
  intro l₁ l₂ h
  induction h with
  | nil => intro _ _ hg _ _; simp [getByUri] at hg
  | cons h1 h2 ih =>
    rename_i a b t₁ t₂
    intro hnd hsub hget hf himp
    have hmb : uriMatches b u = uriMatches a u := uriMatches_congr (hR _ _ h1) u
    by_cases hm : uriMatches a u
    · have ha0 : a0 = a := by
        simp [getByUri, hm] at hget
        exact hget.symm
      subst ha0
      have hupd : updateByUri (b :: t₂) u f = f b :: t₂ := by
        simp [updateByUri, hmb, hm]
      rw [hupd]
      refine .cons (hf b h1) ?_
      exact forall2_imp_notmem h2 (List.nodup_cons.mp hnd).1
        (fun x hx => hsub x (List.mem_cons_of_mem _ hx)) himp
    · have hgt : getByUri t₁ u = some a0 := by
        simpa [getByUri, hm] using hget
      have hne : a ≠ a0 := by
        intro he
        exact (List.nodup_cons.mp hnd).1 (he ▸ getByUri_mem hgt)
      have hupd : updateByUri (b :: t₂) u f = b :: updateByUri t₂ u f := by
        simp [updateByUri, hmb, hm]
      rw [hupd]
      exact .cons (himp _ _ (hsub a (List.mem_cons_self _ _)) h1 hne)
        (ih (List.nodup_cons.mp hnd).2
          (fun x hx => hsub x (List.mem_cons_of_mem _ hx)) hgt hf himp)

theorem routedTo_append (bufs : List BufferData) (du : String)
    (p : List WireDiagnostic) (d : WireDiagnostic) (x : Nat) :
    routedTo bufs du (p ++ [d]) x =
      routedTo bufs du p x ++
        (if targetId bufs du d = some x then [d] else []) := by
  by_cases h : targetId bufs du d = some x <;>
    simp [routedTo, List.filter_append, h]

/-- Characterization of the fold state per buffer: all non-diagnostic
fields are kept; diagnostics are untouched when nothing of the batch so
far routed to the buffer, and are exactly the converted routed sub-batch
otherwise. -/
def diagRel (bufs : List BufferData) (default_uri : String)
    (p : List WireDiagnostic) (b0 bp : BufferData) : Prop :=
  sameDoc b0 bp ∧
    bp.diagnostics =
      if routedTo bufs default_uri p b0.id = [] then b0.diagnostics
      else (routedTo bufs default_uri p b0.id).map convertDiag

theorem process_diagnostics_invariant (default_uri : String)
    (bufs : List BufferData) (hnd : (bufs.map (fun b => b.id)).Nodup)
    (p : List WireDiagnostic) :
    List.Forall₂ (diagRel bufs default_uri p) bufs
      (List.foldl (processOneDiagnostic default_uri) (bufs, []) p).1 ∧
    (∀ x, x ∈ (List.foldl (processOneDiagnostic default_uri) (bufs, []) p).2 ↔
      (x ∈ bufs.map (fun b => b.id) ∧
        routedTo bufs default_uri p x ≠ [])) := by
  induction p using List.reverseRecOn with
  | nil =>
    constructor
    · rw [List.foldl_nil]
      exact List.forall₂_same.mpr fun b hb =>
        ⟨⟨rfl, rfl, rfl, rfl, rfl⟩, by simp [routedTo]⟩
    · intro x
      simp [routedTo]
  | append_singleton p d ih =>
    obtain ⟨ihA, ihB⟩ := ih
    rw [List.foldl_append, List.foldl_cons, List.foldl_nil]
    set st := List.foldl (processOneDiagnostic default_uri) (bufs, []) p with hst
    have hRuri : ∀ a b, diagRel bufs default_uri p a b → b.uri = a.uri :=
      fun a b h => h.1.2.1
    rcases getByUri_rel hRuri ihA (effectiveUri default_uri d) with
      ⟨hn1, hn2⟩ | ⟨a0, bp0, h01, h02, hrel⟩
    · -- no buffer matches: the diagnostic is dropped, nothing changes
      have htid : targetId bufs default_uri d = none := by
        simp [targetId, hn1]
      have hre : ∀ x, routedTo bufs default_uri (p ++ [d]) x =
          routedTo bufs default_uri p x := by
        intro x
        rw [routedTo_append, htid]
        simp
      have hstep : processOneDiagnostic default_uri st d = st := by
        simp [processOneDiagnostic, hn2]
      rw [hstep]
      constructor
      · refine ihA.imp ?_
        intro a b hab
        refine ⟨hab.1, ?_⟩
        show _ = if routedTo bufs default_uri (p ++ [d]) a.id = [] then _ else _
        rw [hre]
        exact hab.2
      · intro x
        rw [hre x]
        exact ihB x
    · -- the diagnostic routes to the buffer a0 (first URI match)
      have hid : bp0.id = a0.id := hrel.1.1
      have htid : targetId bufs default_uri d = some a0.id := by
        simp [targetId, h01]
      have hmem : a0 ∈ bufs := getByUri_mem h01
      have hmemid : a0.id ∈ bufs.map (fun b => b.id) :=
        List.mem_map_of_mem _ hmem
      have hcm : st.2.contains bp0.id = true ↔
          routedTo bufs default_uri p a0.id ≠ [] := by
        rw [hid]
        constructor
        · intro hc
          exact ((ihB a0.id).mp (by simpa using hc)).2
        · intro hr
          simpa using (ihB a0.id).mpr ⟨hmemid, hr⟩
      by_cases hfirst : routedTo bufs default_uri p a0.id = []
      · -- first routed diagnostic for a0: lazily clear, then push
        have hc : st.2.contains bp0.id = false := by
          rcases Bool.eq_false_or_eq_true (st.2.contains bp0.id) with hT | hF
          · exact (hcm.mp hT hfirst).elim
          · exact hF
        have hnotmem : bp0.id ∉ st.2 := by simpa using hc
        have hstep : processOneDiagnostic default_uri st d =
            (updateByUri st.1 (effectiveUri default_uri d)
              (fun bb => { bb with diagnostics := [convertDiag d] }),
             st.2 ++ [bp0.id]) := by
          simp [processOneDiagnostic, h02, hnotmem]
        rw [hstep]
        constructor
        · refine updateByUri_rel hRuri ihA
            (List.Nodup.of_map _ hnd) (fun x hx => hx) h01 ?_ ?_
          · intro b hb
            refine ⟨hb.1, ?_⟩
            show [convertDiag d] = _
            rw [routedTo_append, htid, hfirst]
            simp
          · intro a b ha hab hne
            have hidne : a.id ≠ a0.id := fun he =>
              hne (List.inj_on_of_nodup_map hnd ha hmem he)
            refine ⟨hab.1, ?_⟩
            rw [routedTo_append, htid,
              if_neg (fun he => hidne (Option.some.inj he).symm),
              List.append_nil]
            exact hab.2
        · intro x
          show x ∈ st.2 ++ [bp0.id] ↔ _
          rw [List.mem_append, List.mem_singleton, hid, routedTo_append, htid]
          by_cases hx : x = a0.id
          · subst hx
            simp [hmemid]
          · rw [if_neg (fun he => hx (Option.some.inj he).symm),
              List.append_nil]
            simp only [hx, or_false]
            exact ihB x
      · -- a0 was already cleared in this batch: append to its diagnostics
        have hc : st.2.contains bp0.id = true := hcm.mpr hfirst
        have hmem2 : bp0.id ∈ st.2 := by simpa using hc
        have hstep : processOneDiagnostic default_uri st d =
            (updateByUri st.1 (effectiveUri default_uri d)
              (fun bb =>
                { bb with diagnostics := bb.diagnostics ++ [convertDiag d] }),
             st.2) := by
          simp [processOneDiagnostic, h02, hmem2]
        rw [hstep]
        constructor
        · refine updateByUri_rel hRuri ihA
            (List.Nodup.of_map _ hnd) (fun x hx => hx) h01 ?_ ?_
          · intro b hb
            refine ⟨hb.1, ?_⟩
            show b.diagnostics ++ [convertDiag d] = _
            rw [hb.2, if_neg hfirst, routedTo_append, htid]
            rw [if_pos rfl]
            rw [if_neg (by simp [hfirst])]
            simp [List.map_append]
          · intro a b ha hab hne
            have hidne : a.id ≠ a0.id := fun he =>
              hne (List.inj_on_of_nodup_map hnd ha hmem he)
            refine ⟨hab.1, ?_⟩
            rw [routedTo_append, htid,
              if_neg (fun he => hidne (Option.some.inj he).symm),
              List.append_nil]
            exact hab.2
        · intro x
          rw [routedTo_append, htid]
          by_cases hx : x = a0.id
          · subst hx
            rw [if_pos rfl]
            constructor
            · intro _
              exact ⟨hmemid, by simp⟩
            · intro _
              exact (ihB a0.id).mpr ⟨hmemid, hfirst⟩
          · rw [if_neg (fun he => hx (Option.some.inj he).symm),
              List.append_nil]
            exact ihB x

/-- C5: processing one `publishDiagnostics` batch replaces, never merges:
relative to the buffer list the batch started from, every buffer to which
at least one diagnostic of the batch routes ends up holding exactly the
converted routed sub-batch (its old diagnostics are gone), and every
buffer to which nothing routes keeps its diagnostics unchanged; all other
fields are untouched. Because `process_diagnostics` is a left fold of a
per-diagnostic step, instantiating `diagnostics` with any prefix of a
batch gives the intermediate state, so this also shows the clear happens
lazily, exactly when the first diagnostic routed to a document is seen
(before that prefix the document still holds its old diagnostics). -/
theorem diagnostics_replace_per_batch (default_uri : String)
    (diagnostics : List WireDiagnostic) (bufs : List BufferData)
    (hnd : (bufs.map (fun b => b.id)).Nodup) :
    List.Forall₂
      (fun b0 bp => sameDoc b0 bp ∧
        bp.diagnostics =
          if routedTo bufs default_uri diagnostics b0.id = []
          then b0.diagnostics
          else (routedTo bufs default_uri diagnostics b0.id).map convertDiag)
      bufs (process_diagnostics default_uri diagnostics bufs) :=
  (process_diagnostics_invariant default_uri bufs hnd diagnostics).1

theorem diagnostics_replace_per_batch_witness :
    List.Forall₂
      (fun b0 bp => sameDoc b0 bp ∧
        bp.diagnostics =
          if routedTo
              [⟨1, some "file:///a.rs", 0, "",
                [⟨⟨⟨9, 0⟩, ⟨9, 1⟩⟩, .warning, "old"⟩], []⟩,
               ⟨2, some "file:///b.rs", 0, "", [], []⟩]
              "file:///a.rs"
              [⟨⟨⟨0, 0⟩, ⟨0, 1⟩⟩, none, "m1",
                some [⟨⟨"file:///b.rs"⟩, "rel"⟩]⟩,
               ⟨⟨⟨1, 0⟩, ⟨1, 1⟩⟩, some .hint, "m2",
                some [⟨⟨"file:///b.rs"⟩, "rel"⟩]⟩] b0.id = []
          then b0.diagnostics
          else (routedTo
              [⟨1, some "file:///a.rs", 0, "",
                [⟨⟨⟨9, 0⟩, ⟨9, 1⟩⟩, .warning, "old"⟩], []⟩,
               ⟨2, some "file:///b.rs", 0, "", [], []⟩]
              "file:///a.rs"
              [⟨⟨⟨0, 0⟩, ⟨0, 1⟩⟩, none, "m1",
                some [⟨⟨"file:///b.rs"⟩, "rel"⟩]⟩,
               ⟨⟨⟨1, 0⟩, ⟨1, 1⟩⟩, some .hint, "m2",
                some [⟨⟨"file:///b.rs"⟩, "rel"⟩]⟩] b0.id).map convertDiag)
      [⟨1, some "file:///a.rs", 0, "",
        [⟨⟨⟨9, 0⟩, ⟨9, 1⟩⟩, .warning, "old"⟩], []⟩,
       ⟨2, some "file:///b.rs", 0, "", [], []⟩]
      (process_diagnostics "file:///a.rs"
        [⟨⟨⟨0, 0⟩, ⟨0, 1⟩⟩, none, "m1",
          some [⟨⟨"file:///b.rs"⟩, "rel"⟩]⟩,
         ⟨⟨⟨1, 0⟩, ⟨1, 1⟩⟩, some .hint, "m2",
          some [⟨⟨"file:///b.rs"⟩, "rel"⟩]⟩]
        [⟨1, some "file:///a.rs", 0, "",
          [⟨⟨⟨9, 0⟩, ⟨9, 1⟩⟩, .warning, "old"⟩], []⟩,
         ⟨2, some "file:///b.rs", 0, "", [], []⟩]) :=
  diagnostics_replace_per_batch "file:///a.rs"
    [⟨⟨⟨0, 0⟩, ⟨0, 1⟩⟩, none, "m1", some [⟨⟨"file:///b.rs"⟩, "rel"⟩]⟩,
     ⟨⟨⟨1, 0⟩, ⟨1, 1⟩⟩, some .hint, "m2", some [⟨⟨"file:///b.rs"⟩, "rel"⟩]⟩]
    [⟨1, some "file:///a.rs", 0, "",
      [⟨⟨⟨9, 0⟩, ⟨9, 1⟩⟩, .warning, "old"⟩], []⟩,
     ⟨2, some "file:///b.rs", 0, "", [], []⟩]
    (by decide)

/-! ## The inbound router (src/lsp.rs:320-402 and 469-485) -/

/-- The anchor position of an inlay hint (src/lsp.rs:476-480): range end
for type and chaining hints, range start for parameter hints. -/
def hintAnchor (h : InlayHint) : Position :=
  match h.kind with
  | .typeHint => h.range.endPos
  | .parameterHint => h.range.start
  | .chainingHint => h.range.endPos

/-- `process_inlay_hints` (src/lsp.rs:469-485): find the buffer by URI; if
found, clear its inlay hints and push one `(anchor, hint)` entry per hint
in order; if no buffer matches, do nothing. -/
def process_inlay_hints (uri : String) (hints : List InlayHint)
    (bufs : List BufferData) : List BufferData :=
  match getByUri bufs uri with
  | none => bufs
  | some _ =>
    updateByUri bufs uri
      (fun b => { b with inlay_hints := hints.map (fun h => (hintAnchor h, h)) })

/-- `LspOutput` (src/lsp.rs:163-169): what the router republishes on the
per-document output queue. -/
inductive LspOutput where
  | completion (cs : List LspCompletion)
  | completionResolve (c : LspCompletion)
  | inlayHints
  | diagnostics
deriving DecidableEq, Repr

/-- The `suc.result` payload of a successful response, as seen by the
per-method `serde_json::from_value` decodes of the inbound router: the two
shapes of a completion response, a resolved completion item, an inlay-hint
list, or anything that fails the decode expected for the recorded method. -/
inductive InboundResult where
  | completionArray (items : List CompletionItem)
  | completionList (items : List CompletionItem)
  | resolvedItem (item : CompletionItem)
  | inlayHintList (hints : List InlayHint)
  | otherJson
deriving DecidableEq, Repr

/-- What one routed response does to the inbound task. -/
inductive RouteOutcome where
  | initGate
  | emitted (out : LspOutput)
  | ignored
  | panicked
  | parseFailed
deriving DecidableEq, Repr

/-- Whether the inbound loop reaches its next iteration after an outcome:
a panic (failed `.unwrap()` / `unimplemented!`) kills the task, and a
decode error propagated with `?` returns from the task; everything else
falls through to the next read. -/
def routerContinues : RouteOutcome → Bool
  | .panicked => false
  | .parseFailed => false
  | _ => true

/-- The response arm of the inbound reader (src/lsp.rs:344-382): a numeric
id equal to the initialize sentinel signals the one-shot gate; otherwise
the id is claimed from the registry with `get_request(id).unwrap()` — a
panic when the id is unknown — and the recorded method selects how to
decode the payload and which output to emit; an unrecognized method falls
into the `_ => {}` arm. -/
def routeSuccess (sys : LspSystem) (bufs : List BufferData) (id : Nat)
    (result : InboundResult) : LspSystem × List BufferData × RouteOutcome :=
  if id = initializeId then (sys, bufs, .initGate)
  else
    match sys.get_request id with
    | (none, sys1) => (sys1, bufs, .panicked)
    | (some request, sys1) =>
      if request.method = "textDocument/completion" then
        match result with
        | .completionArray arr =>
          match convert_completions arr with
          | some cs => (sys1, bufs, .emitted (.completion cs))
          | none => (sys1, bufs, .panicked)
        | .completionList items =>
          match convert_completions items with
          | some cs => (sys1, bufs, .emitted (.completion cs))
          | none => (sys1, bufs, .panicked)
        | _ => (sys1, bufs, .parseFailed)
      else if request.method = "completionItem/resolve" then
        match result with
        | .resolvedItem item =>
          match convert_completion item with
          | .ok c => (sys1, bufs, .emitted (.completionResolve c))
          | _ => (sys1, bufs, .panicked)
        | _ => (sys1, bufs, .parseFailed)
      else if request.method = "rust-analyzer/inlayHints" then
        match result with
        | .inlayHintList hints =>
          (sys1, process_inlay_hints request.uri hints bufs,
           .emitted .inlayHints)
        | _ => (sys1, bufs, .parseFailed)
      else (sys1, bufs, .ignored)

theorem removeReq_of_lookup_none (l : List (Nat × SentRequest)) (id : Nat)
    (h : lookupReq l id = none) : removeReq l id = l := by
  induction l with
  | nil => rfl
  | cons p rest ih =>
    obtain ⟨k, r⟩ := p
    by_cases hk : k = id
    · simp [lookupReq, hk] at h
    · simp only [lookupReq, hk, if_false, if_neg hk] at h ⊢
      rw [removeReq, if_neg hk, ih h]

/-- C1 counterexample: the claim says an inbound response with an unknown
non-sentinel id is dropped without failing and the loop continues. The
code instead calls `lsp.get_request(id).unwrap()`, which panics on `None`,
killing the inbound reader task. -/
theorem unmatched_response_panics_cex :
    routeSuccess LspSystem.empty [] 1 .otherJson =
      (LspSystem.empty, [], .panicked) ∧
    routerContinues .panicked = false := ⟨rfl, rfl⟩

/-- C1 amended: a response whose numeric id is neither the initialize
sentinel nor present in the Request Registry makes the inbound reader
panic on the unwrapped registry lookup: the task dies (the loop does NOT
continue), no output is emitted, and no state changes (the registry and
the buffers are left as they were). -/
theorem unmatched_response_amended (sys : LspSystem)
    (bufs : List BufferData) (id : Nat) (result : InboundResult)
    (hid : id ≠ initializeId) (hreq : lookupReq sys.requests id = none) :
    routeSuccess sys bufs id result = (sys, bufs, .panicked) ∧
    routerContinues .panicked = false := by
  constructor
  · rw [routeSuccess, if_neg hid]
    have hget : sys.get_request id =
        (none, { sys with requests := removeReq sys.requests id }) := by
      rw [LspSystem.get_request, hreq]
    rw [hget]
    have : { sys with requests := removeReq sys.requests id } = sys := by
      have := removeReq_of_lookup_none sys.requests id hreq
      cases sys
      simp_all
    rw [this]
  · rfl

theorem unmatched_response_amended_witness :
    routeSuccess ⟨5, [(3, ⟨"textDocument/completion", "file:///a.rs"⟩)]⟩ []
        4 .otherJson =
      (⟨5, [(3, ⟨"textDocument/completion", "file:///a.rs"⟩)]⟩, [],
        .panicked) ∧
    routerContinues .panicked = false :=
  unmatched_response_amended
    ⟨5, [(3, ⟨"textDocument/completion", "file:///a.rs"⟩)]⟩ [] 4 .otherJson
    (by decide) (by decide)

/-! ## The outbound dispatcher (src/lsp.rs:410-466 and 552-724) and the
document version counter (src/buffer.rs:443-449) -/

/-- i32 wrap-around: `AtomicI32::fetch_add(1)` stores the wrapped
successor. -/
def wrap32 (x : Int) : Int := (x + 2 ^ 31) % 2 ^ 32 - 2 ^ 31

/-- `LspInput` (src/lsp.rs:131-161): the dispatcher's intent queue items. -/
inductive LspInput where
  | edit (buffer_id : Nat) (version : Int) (text : String)
  | requestCompletion (buffer_id : Nat) (row : Nat) (col : Nat)
  | requestCompletionResolve (buffer_id : Nat) (item : CompletionItem)
  | openFile (uri : String) (content : String)
  | closeFile (uri : String)
  | savedFile (uri : String) (content : String)
  | inlayHints (uri : String)
deriving DecidableEq, Repr

/-- `Buffer::lsp_edit` (src/buffer.rs:443-449), run on the editor side for
every raw edit (insert / remove): `fetch_add(1)` on the buffer's version
counter returns the OLD value, which is put into the `LspInput::Edit`
intent together with the buffer id and current text. -/
def lsp_edit (b : BufferData) : LspInput × BufferData :=
  (.edit b.id b.version b.text, { b with version := wrap32 (b.version + 1) })

/-- The wire messages the dispatcher can write to the server's stdin;
requests carry the correlation id allocated for them. -/
inductive WireMsg where
  | didOpen (uri : String) (language_id : String) (version : Int)
      (text : String)
  | didChange (uri : String) (version : Int) (text : String)
  | didSave (uri : String) (text : String)
  | didClose (uri : String)
  | completionRequest (id : Nat) (uri : String) (row : Nat) (col : Nat)
  | resolveRequest (id : Nat) (item : CompletionItem)
  | inlayHintsRequest (id : Nat) (uri : String)
deriving DecidableEq, Repr

/-- Outcome of `notify_did_change` (src/lsp.rs:552-577). -/
inductive NdcOut where
  | errNoBuffer
  | errNoPath
  | ioFail
  | sent (uri : String) (m : WireMsg)
deriving DecidableEq, Repr

/-- `notify_did_change` (src/lsp.rs:552-577): read the buffer by id
(`?`-failure if missing), take its path (`?`-failure if a pathless text
buffer), `fetch_add` the version counter (the OLD value is the version
sent), then write a whole-document `didChange`. The ambient I/O is
modelled by the `io` predicate saying which writes succeed. -/
def notify_did_change (io : WireMsg → Bool) (bufs : List BufferData)
    (buffer_id : Nat) : List BufferData × NdcOut :=
  match findById bufs buffer_id with
  | none => (bufs, .errNoBuffer)
  | some b =>
    match b.uri with
    | none => (bufs, .errNoPath)
    | some u =>
      let m := WireMsg.didChange u b.version b.text
      let bufs1 := updateById bufs buffer_id
        (fun bb => { bb with version := wrap32 (bb.version + 1) })
      if io m then (bufs1, .sent u m) else (bufs1, .ioFail)

/-- `send_request_async` (src/lsp.rs:613-627): allocate an id in the
registry (before any write), build the request message, and attempt the
write; the registry keeps the entry even when the write fails. -/
def send_request (io : WireMsg → Bool) (sys : LspSystem)
    (method : String) (uri : String) (mk : Nat → WireMsg) :
    LspSystem × Option WireMsg :=
  let p := sys.new_request method uri
  (p.2, if io (mk p.1) then some (mk p.1) else none)

/-- What `process_input` (src/lsp.rs:410-466) reports back to the
dispatcher loop: `Ok(())`, an `Err` the loop logs, or a panic from one of
the internal `.unwrap()` calls. -/
inductive StepResult where
  | ok
  | errLogged (msg : String)
  | panicked
deriving DecidableEq, Repr

/-- Full result of one `process_input` call: registry, buffers, the wire
messages successfully written (in order), and how the call ended. -/
structure StepOut where
  sys : LspSystem
  bufs : List BufferData
  trace : List WireMsg
  result : StepResult
deriving DecidableEq, Repr

/-- `LspClient::process_input` (src/lsp.rs:410-466). Every wire write in
it is `.unwrap()`ed, so an I/O failure (or a failed lookup inside
`notify_did_change`) panics; the only error RETURNED (and hence logged by
the loop) is the `context("buffer not found")?` on a Save intent. The
`didOpen` notification hardcodes language id "rust" and version 0
(src/lsp.rs:686-700), and the Open arm requests inlay hints
unconditionally, while the Save and InlayHints arms gate the request on
the language being Rust. -/
def process_input (lang : LspLang) (io : WireMsg → Bool) (sys : LspSystem)
    (bufs : List BufferData) (input : LspInput) : StepOut :=
  match input with
  | .requestCompletion buffer_id row col =>
    match notify_did_change io bufs buffer_id with
    | (bufs1, .sent url m1) =>
      let p := send_request io sys "textDocument/completion" url
        (fun id => .completionRequest id url row col)
      match p.2 with
      | some m2 => ⟨p.1, bufs1, [m1, m2], .ok⟩
      | none => ⟨p.1, bufs1, [m1], .panicked⟩
    | (bufs1, _) => ⟨sys, bufs1, [], .panicked⟩
  | .requestCompletionResolve _ item =>
    let p := send_request io sys "completionItem/resolve" "none://none"
      (fun id => .resolveRequest id item)
    match p.2 with
    | some m => ⟨p.1, bufs, [m], .ok⟩
    | none => ⟨p.1, bufs, [], .panicked⟩
  | .openFile uri content =>
    let m1 := WireMsg.didOpen uri "rust" 0 content
    if io m1 then
      let p := send_request io sys "rust-analyzer/inlayHints" uri
        (fun id => .inlayHintsRequest id uri)
      match p.2 with
      | some m2 => ⟨p.1, bufs, [m1, m2], .ok⟩
      | none => ⟨p.1, bufs, [m1], .panicked⟩
    else ⟨sys, bufs, [], .panicked⟩
  | .closeFile uri =>
    let m := WireMsg.didClose uri
    if io m then ⟨sys, bufs, [m], .ok⟩ else ⟨sys, bufs, [], .panicked⟩
  | .savedFile uri content =>
    match getByUri bufs uri with
    | none => ⟨sys, bufs, [], .errLogged "buffer not found"⟩
    | some b =>
      match notify_did_change io bufs b.id with
      | (bufs1, .sent _ m1) =>
        let m2 := WireMsg.didSave uri content
        if io m2 then
          if lang = .rust then
            let p := send_request io sys "rust-analyzer/inlayHints" uri
              (fun id => .inlayHintsRequest id uri)
            match p.2 with
            | some m3 => ⟨p.1, bufs1, [m1, m2, m3], .ok⟩
            | none => ⟨p.1, bufs1, [m1, m2], .panicked⟩
          else ⟨sys, bufs1, [m1, m2], .ok⟩
        else ⟨sys, bufs1, [m1], .panicked⟩
      | (bufs1, _) => ⟨sys, bufs1, [], .panicked⟩
  | .inlayHints uri =>
    if lang = .rust then
      let p := send_request io sys "rust-analyzer/inlayHints" uri
        (fun id => .inlayHintsRequest id uri)
      match p.2 with
      | some m => ⟨p.1, bufs, [m], .ok⟩
      | none => ⟨p.1, bufs, [], .panicked⟩
    else ⟨sys, bufs, [], .ok⟩
  | .edit _ _ _ => ⟨sys, bufs, [], .ok⟩

/-- The dispatcher loop (src/lsp.rs:311-317) prints a returned `Err` and
falls through to `c_rx.recv()` again; a panic unwinds the task. -/
def dispatcherContinues : StepResult → Bool
  | .panicked => false
  | _ => true

/-- C10: on every Open intent, regardless of the document's configured
language (Rust, Json, Python or PlainText), the `didOpen` notification
sent to the server carries language id "rust" and version 0 — the values
are hardcoded in `notify_did_open` — and is followed by the inlay-hint
request. -/
theorem didopen_language_id_version (lang : LspLang) (sys : LspSystem)
    (bufs : List BufferData) (uri content : String) :
    (process_input lang (fun _ => true) sys bufs
        (.openFile uri content)).trace =
      [.didOpen uri "rust" 0 content,
       .inlayHintsRequest sys.counter uri] := rfl

/-- C7 counterexample: the claim says the Open intent requests inlay hints
if and only if the language supports them (the Rust-only gate used by the
Save and InlayHints arms). For a Json document, Open still requests inlay
hints (the call in the OpenFile arm is unconditional), while an explicit
InlayHints intent for the same language sends nothing. -/
theorem open_requests_hints_for_json_cex :
    (process_input .json (fun _ => true) LspSystem.empty []
        (.openFile "file:///a.json" "t")).trace =
      [.didOpen "file:///a.json" "rust" 0 "t",
       .inlayHintsRequest 0 "file:///a.json"] ∧
    LspLang.json ≠ LspLang.rust ∧
    (process_input .json (fun _ => true) LspSystem.empty []
        (.inlayHints "file:///a.json")).trace = [] :=
  ⟨rfl, by decide, rfl⟩

/-- C7 amended: on Open the dispatcher sends `didOpen` with the full text
and version 0 and then ALWAYS requests inlay hints, for every language;
the Rust-only language gate applies to the Save arm and to the explicit
InlayHints intent, not to Open. -/
theorem open_inlay_hints_amended (lang : LspLang) (sys : LspSystem)
    (bufs : List BufferData) (uri content : String) (b : BufferData)
    (u : String)
    (hfind : getByUri bufs uri = some b)
    (hby : findById bufs b.id = some b)
    (hpath : b.uri = some u) :
    (process_input lang (fun _ => true) sys bufs
        (.openFile uri content)).trace =
      [.didOpen uri "rust" 0 content,
       .inlayHintsRequest sys.counter uri] ∧
    (process_input lang (fun _ => true) sys bufs (.inlayHints uri)).trace =
      (if lang = .rust then [.inlayHintsRequest sys.counter uri] else []) ∧
    (process_input lang (fun _ => true) sys bufs
        (.savedFile uri content)).trace =
      [.didChange u b.version b.text, .didSave uri content] ++
        (if lang = .rust then [.inlayHintsRequest sys.counter uri]
         else []) := by
  refine ⟨rfl, ?_, ?_⟩
  · cases lang <;>
      simp [process_input, send_request, LspSystem.new_request]
  · have hndc : notify_did_change (fun _ => true) bufs b.id =
        (updateById bufs b.id
          (fun bb => { bb with version := wrap32 (bb.version + 1) }),
         .sent u (.didChange u b.version b.text)) := by
      simp [notify_did_change, hby, hpath]
    cases lang <;>
      simp [process_input, hfind, hndc, send_request, LspSystem.new_request]

theorem open_inlay_hints_amended_witness :
    (process_input .json (fun _ => true) LspSystem.empty
        [⟨1, some "file:///k.rs", 5, "tx", [], []⟩]
        (.openFile "file:///k.rs" "c")).trace =
      [.didOpen "file:///k.rs" "rust" 0 "c",
       .inlayHintsRequest 0 "file:///k.rs"] ∧
    (process_input .json (fun _ => true) LspSystem.empty
        [⟨1, some "file:///k.rs", 5, "tx", [], []⟩]
        (.inlayHints "file:///k.rs")).trace = [] ∧
    (process_input .json (fun _ => true) LspSystem.empty
        [⟨1, some "file:///k.rs", 5, "tx", [], []⟩]
        (.savedFile "file:///k.rs" "c")).trace =
      [.didChange "file:///k.rs" 5 "tx", .didSave "file:///k.rs" "c"] :=
  open_inlay_hints_amended .json LspSystem.empty
    [⟨1, some "file:///k.rs", 5, "tx", [], []⟩] "file:///k.rs" "c"
    ⟨1, some "file:///k.rs", 5, "tx", [], []⟩ "file:///k.rs"
    (by decide) (by decide) rfl

/-- C6 counterexample: the claim says an I/O failure on a single intent is
logged and the loop continues to the next intent. Every wire write inside
`process_input` is `.unwrap()`ed, so an I/O failure (here: writing the
`didClose` notification fails) panics the dispatcher task and the loop
does not continue. -/
theorem io_failure_panics_dispatcher_cex :
    (process_input .rust (fun _ => false) LspSystem.empty []
        (.closeFile "file:///a.rs")).result = .panicked ∧
    dispatcherContinues .panicked = false := ⟨rfl, rfl⟩

/-- C6 amended: an error RETURNED by `process_input` — in this code only
the `context("buffer not found")?` failure of a Save intent for an
unknown URI — is logged and the dispatcher loop goes on to the next
intent; an I/O failure inside an intent, however, hits an `.unwrap()` and
panics the dispatcher task, terminating the loop. -/
theorem dispatcher_error_handling_amended (lang : LspLang)
    (io : WireMsg → Bool) (sys : LspSystem) (bufs : List BufferData)
    (uri content : String)
    (hmiss : getByUri bufs uri = none) :
    ((process_input lang io sys bufs (.savedFile uri content)).result =
        .errLogged "buffer not found" ∧
      dispatcherContinues
        (process_input lang io sys bufs (.savedFile uri content)).result =
        true) ∧
    ((process_input lang (fun _ => false) sys bufs
        (.openFile uri content)).result = .panicked ∧
      (process_input lang (fun _ => false) sys bufs
        (.closeFile uri)).result = .panicked ∧
      dispatcherContinues .panicked = false) := by
  have hsave : (process_input lang io sys bufs
      (.savedFile uri content)).result = .errLogged "buffer not found" := by
    simp [process_input, hmiss]
  refine ⟨⟨hsave, ?_⟩, rfl, rfl, rfl⟩
  rw [hsave]
  rfl

theorem dispatcher_error_handling_amended_witness :
    ((process_input .rust (fun _ => true) LspSystem.empty []
        (.savedFile "file:///a.rs" "c")).result =
        .errLogged "buffer not found" ∧
      dispatcherContinues
        (process_input .rust (fun _ => true) LspSystem.empty []
          (.savedFile "file:///a.rs" "c")).result = true) ∧
    ((process_input .rust (fun _ => false) LspSystem.empty []
        (.openFile "file:///a.rs" "c")).result = .panicked ∧
      (process_input .rust (fun _ => false) LspSystem.empty []
        (.closeFile "file:///a.rs")).result = .panicked ∧
      dispatcherContinues .panicked = false) :=
  dispatcher_error_handling_amended .rust (fun _ => true) LspSystem.empty []
    "file:///a.rs" "c" rfl

/-- The two kinds of version-relevant events a document sees after it is
opened: a raw edit intent (the editor runs `Buffer::lsp_edit`, which
`fetch_add`s the version counter while building the `LspInput::Edit`
intent — an intent the dispatcher then discards), and a flush
(`notify_did_change`, run by the dispatcher immediately before a
completion request and on save, which `fetch_add`s the SAME counter and
sends the old value as the `didChange` version). -/
inductive DocEvent where
  | editIntent
  | flush
deriving DecidableEq, Repr

/-- Run a sequence of document events against the buffer list. -/
def runDocEvents (io : WireMsg → Bool) (bufs : List BufferData)
    (buffer_id : Nat) : List DocEvent → List BufferData
  | [] => bufs
  | .editIntent :: es =>
    runDocEvents io
      (updateById bufs buffer_id (fun b => (lsp_edit b).2)) buffer_id es
  | .flush :: es =>
    runDocEvents io (notify_did_change io bufs buffer_id).1 buffer_id es

/-- C3 counterexample: the claim says the `didChange` version flushed
before a completion request equals the count of completion/save requests
so far (flushes alone) — here 0, since the single preceding event is a raw
edit intent. But the edit intent already bumped the shared counter via
`lsp_edit`, so the flush sends version 1, not 0. -/
theorem didchange_version_counts_edits_cex :
    (notify_did_change (fun _ => true)
        (runDocEvents (fun _ => true)
          [⟨1, some "file:///a.rs", 0, "t", [], []⟩] 1 [.editIntent])
        1).2 =
      .sent "file:///a.rs" (.didChange "file:///a.rs" 1 "t") ∧
    (1 : Int) ≠ 0 := by
  constructor
  · rfl
  · decide

theorem docEvent_count_length (es : List DocEvent) :
    es.count DocEvent.editIntent + es.count DocEvent.flush = es.length := by
  induction es with
  | nil => rfl
  | cons e t ih =>
    cases e <;> simp [List.count_cons, ← ih] <;> omega

theorem runDocEvents_version (io : WireMsg → Bool) (i : Nat)
    (u text : String) (diags : List StoredDiagnostic)
    (hints : List (Position × InlayHint)) (v : Int)
    (events : List DocEvent) (hv : 0 ≤ v)
    (hbound : v + events.length < 2 ^ 31) :
    runDocEvents io [⟨i, some u, v, text, diags, hints⟩] i events =
      [⟨i, some u, v + events.length, text, diags, hints⟩] := by
  induction events generalizing v with
  | nil => simp [runDocEvents]
  | cons e es ih =>
    have hw : wrap32 (v + 1) = v + 1 := by
      have h1 : (0 : Int) ≤ v + 1 + 2 ^ 31 := by omega
      have h2 : v + 1 + 2 ^ 31 < 2 ^ 32 := by
        have := hbound
        simp only [List.length_cons] at this
        push_cast at this
        omega
      rw [wrap32, Int.emod_eq_of_lt h1 h2]
      ring
    have hb2 : v + 1 + es.length < 2 ^ 31 := by
      have := hbound
      simp only [List.length_cons] at this
      push_cast at this ⊢
      omega
    cases e with
    | editIntent =>
      show runDocEvents io
        (updateById [⟨i, some u, v, text, diags, hints⟩] i
          (fun b => (lsp_edit b).2)) i es = _
      have hupd : updateById [⟨i, some u, v, text, diags, hints⟩] i
          (fun b => (lsp_edit b).2) =
          [⟨i, some u, v + 1, text, diags, hints⟩] := by
        simp [updateById, lsp_edit, hw]
      rw [hupd, ih (v + 1) (by omega) hb2]
      congr 1
      simp only [List.length_cons]
      push_cast
      ring_nf
    | flush =>
      show runDocEvents io
        (notify_did_change io [⟨i, some u, v, text, diags, hints⟩] i).1
        i es = _
      have hndc : (notify_did_change io
          [⟨i, some u, v, text, diags, hints⟩] i).1 =
          [⟨i, some u, v + 1, text, diags, hints⟩] := by
        rw [notify_did_change]
        simp only [findById, if_pos rfl]
        by_cases hio : io (.didChange u v text) <;>
          simp [hio, updateById, hw]
      rw [hndc, ih (v + 1) (by omega) hb2]
      congr 1
      simp only [List.length_cons]
      push_cast
      ring_nf

/-- C3 amended: for a document opened at version 0 that then sees M raw
edit intents and F flushes (in any order), the next flush — the
`didChange` sent immediately before a completion request — carries
version M + F, because BOTH raw edit intents (via `Buffer::lsp_edit`) and
flushes (via `notify_did_change`) increment the same per-buffer version
counter; it does not equal the count of flushes alone. -/
theorem didchange_version_amended (i : Nat) (u text : String)
    (diags : List StoredDiagnostic) (hints : List (Position × InlayHint))
    (events : List DocEvent) (hbound : events.length < 2 ^ 31) :
    (notify_did_change (fun _ => true)
        (runDocEvents (fun _ => true)
          [⟨i, some u, 0, text, diags, hints⟩] i events) i).2 =
      .sent u (.didChange u
        ((events.count DocEvent.editIntent +
          events.count DocEvent.flush : Nat) : Int) text) := by
  have hrun := runDocEvents_version (fun _ => true) i u text diags hints 0
    events (by norm_num) (by push_cast; omega)
  rw [hrun]
  rw [notify_did_change]
  simp only [findById, if_pos rfl]
  have hcount : ((events.count DocEvent.editIntent +
      events.count DocEvent.flush : Nat) : Int) = 0 + events.length := by
    rw [docEvent_count_length]
    ring
  simp [hcount]

theorem didchange_version_amended_witness :
    (notify_did_change (fun _ => true)
        (runDocEvents (fun _ => true)
          [⟨1, some "file:///a.rs", 0, "t", [], []⟩] 1
          [.editIntent, .editIntent, .flush]) 1).2 =
      .sent "file:///a.rs" (.didChange "file:///a.rs"
        (([DocEvent.editIntent, .editIntent, .flush].count
            DocEvent.editIntent +
          [DocEvent.editIntent, .editIntent, .flush].count
            DocEvent.flush : Nat) : Int) "t") :=
  didchange_version_amended 1 "file:///a.rs" "t" [] []
    [.editIntent, .editIntent, .flush] (by norm_num)

/-! ## The transport framer (src/lsp.rs:320-340 outbound read,
and the `Content-Length: <n>\r\n\r\n<payload>` write of
src/lsp.rs:597-607 and 645-654)

The byte stream is modelled as a `List Char` (one entry per byte; the
lengths used by the code are byte counts and the payloads here are over
the same alphabet the length counts). -/

/-- Whitespace as trimmed by `str::trim` (the characters occurring in this
protocol; full Unicode whitespace never appears in the framing). -/
def isWs (c : Char) : Bool :=
  c = ' ' || c = '\t' || c = '\r' || c = '\n'

/-- `read_line`: everything up to and including the first newline (the
whole remainder if none). -/
def splitAtNewline : List Char → List Char × List Char
  | [] => ([], [])
  | c :: rest =>
    if c = '\n' then ([c], rest)
    else
      let p := splitAtNewline rest
      (c :: p.1, p.2)

/-- Drop leading whitespace. -/
def dropWs : List Char → List Char :=
  List.dropWhile isWs

/-- `str::trim`: drop trailing, then leading whitespace. -/
def trim (l : List Char) : List Char :=
  dropWs ((dropWs l.reverse).reverse)

/-- `header.split(": ")`: split on every (leftmost-first) occurrence of
the two-character separator. -/
def splitOnCS : List Char → List (List Char)
  | [] => [[]]
  | [c] => [[c]]
  | c :: d :: rest =>
    if c = ':' ∧ d = ' ' then [] :: splitOnCS rest
    else
      match splitOnCS (d :: rest) with
      | [] => [[c]]
      | l :: ls => (c :: l) :: ls

/-- The header-reading loop of the inbound reader (src/lsp.rs:324-336):
read a line (ending the task if the stream is exhausted — `none`), trim
it, stop on an empty line, otherwise split into exactly two parts
(`assert_eq!(parts.len(), 2)` — a panic, also `none` here) and insert
into the header map (prepending: the first match of `lookupHeader` is the
most recent insert, as in a `HashMap` overwrite). The fuel argument only
bounds the number of loop iterations; each iteration consumes at least
one character, so `input.length + 1` always suffices. -/
def readHeaders : Nat → List Char → List (List Char × List Char) →
    Option (List (List Char × List Char) × List Char)
  | 0, _, _ => none
  | _ + 1, [], _ => none
  | fuel + 1, c :: input, headers =>
    let p := splitAtNewline (c :: input)
    let t := trim p.1
    if t = [] then some (headers, p.2)
    else
      match splitOnCS t with
      | [k, v] => readHeaders fuel p.2 ((k, v) :: headers)
      | _ => none

/-- First match in the header map (the most recent insert). -/
def lookupHeader : List (List Char × List Char) → List Char →
    Option (List Char)
  | [], _ => none
  | (k, v) :: rest, key =>
    if k = key then some v else lookupHeader rest key

/-- The numeric value of a digit string (the accumulator fold of an
unsigned decimal parse). -/
def parseNatDigits (l : List Char) : Nat :=
  l.foldl (fun a c => a * 10 + (c.toNat - 48)) 0

/-- `str::parse::<usize>`: fails on an empty or non-digit string. -/
def parseNat (l : List Char) : Option Nat :=
  if l ≠ [] ∧ l.all Char.isDigit then some (parseNatDigits l) else none

/-- Decimal rendering of a length, as `write!("{}", n)` produces it; the
fuel makes the recursion structural (any fuel above the digit count gives
the same digits). -/
def natDigitsAux : Nat → Nat → List Char
  | 0, _ => []
  | fuel + 1, n =>
    if n < 10 then [Char.ofNat (48 + n)]
    else natDigitsAux fuel (n / 10) ++ [Char.ofNat (48 + n % 10)]

def natDigits (n : Nat) : List Char := natDigitsAux (n + 1) n

/-- The `Content-Length` header name. -/
def contentLengthKey : List Char :=
  ['C', 'o', 'n', 't', 'e', 'n', 't', '-', 'L', 'e', 'n', 'g', 't', 'h']

/-- The outbound framing (src/lsp.rs:600-605 and 648-653):
`Content-Length: <n>\r\n\r\n<payload>` with no other headers, `n` the
length of the payload. -/
def encodeMessage (payload : List Char) : List Char :=
  contentLengthKey ++ ':' :: ' ' :: natDigits payload.length ++
    '\r' :: '\n' :: '\r' :: '\n' :: payload

/-- The inbound decode of one framed message (src/lsp.rs:321-340): read
header lines until the empty line, look up `Content-Length` (a panic if
absent), parse it (`?` on failure), then read exactly that many bytes
(failing if the stream is shorter). All failure modes collapse to
`none`. -/
def decodeMessage (input : List Char) : Option (List Char) :=
  match readHeaders (input.length + 1) input [] with
  | none => none
  | some (headers, rest) =>
    match lookupHeader headers contentLengthKey with
    | none => none
    | some v =>
      match parseNat v with
      | none => none
      | some n => if n ≤ rest.length then some (rest.take n) else none

theorem parseNatDigits_append (l : List Char) (c : Char) :
    parseNatDigits (l ++ [c]) = parseNatDigits l * 10 + (c.toNat - 48) := by
  simp [parseNatDigits, List.foldl_append]

theorem charOfNat_digit_toNat (m : Nat) (hm : m < 10) :
    (Char.ofNat (48 + m)).toNat = 48 + m := by
  interval_cases m <;> decide

theorem charOfNat_digit_isDigit (m : Nat) (hm : m < 10) :
    (Char.ofNat (48 + m)).isDigit = true := by
  interval_cases m <;> decide

theorem natDigitsAux_spec : ∀ fuel n, n < fuel →
    natDigitsAux fuel n ≠ [] ∧
    (∀ c ∈ natDigitsAux fuel n, c.isDigit = true) ∧
    parseNatDigits (natDigitsAux fuel n) = n := by
  intro fuel
  induction fuel with
  | zero => intro n h; omega
  | succ f ih =>
    intro n h
    by_cases h10 : n < 10
    · refine ⟨by simp [natDigitsAux, h10], ?_, ?_⟩
      · intro c hc
        simp [natDigitsAux, h10] at hc
        subst hc
        exact charOfNat_digit_isDigit n h10
      · simp only [natDigitsAux, if_pos h10]
        rw [show [Char.ofNat (48 + n)] = [] ++ [Char.ofNat (48 + n)] from rfl,
          parseNatDigits_append, charOfNat_digit_toNat n h10]
        simp [parseNatDigits]
    · have hdiv : n / 10 < f := by omega
      obtain ⟨hne, hdig, hval⟩ := ih (n / 10) hdiv
      have hm : n % 10 < 10 := by omega
      simp only [natDigitsAux, if_neg h10]
      refine ⟨by simp, ?_, ?_⟩
      · intro c hc
        rcases List.mem_append.mp hc with hc1 | hc2
        · exact hdig c hc1
        · simp at hc2
          subst hc2
          exact charOfNat_digit_isDigit _ hm
      · rw [parseNatDigits_append, hval, charOfNat_digit_toNat _ hm]
        omega

theorem digit_not_special {c : Char} (h : c.isDigit = true) :
    isWs c = false ∧ c ≠ ':' := by
  constructor
  · cases hb : isWs c with
    | false => rfl
    | true =>
      exfalso
      simp [isWs] at hb
      rcases hb with ((h1 | h1) | h1) | h1 <;> rw [h1] at h <;>
        exact absurd h (by decide)
  · intro he
    subst he
    exact absurd h (by decide)

theorem parseNat_natDigits (n : Nat) : parseNat (natDigits n) = some n := by
  obtain ⟨hne, hdig, hval⟩ := natDigitsAux_spec (n + 1) n (by omega)
  rw [natDigits] at *
  rw [parseNat, if_pos ⟨hne, by simpa [List.all_eq_true] using hdig⟩, hval]

theorem natDigits_props (n : Nat) :
    natDigits n ≠ [] ∧ ∀ c ∈ natDigits n, isWs c = false ∧ c ≠ ':' := by
  obtain ⟨hne, hdig, _⟩ := natDigitsAux_spec (n + 1) n (by omega)
  exact ⟨hne, fun c hc => digit_not_special (hdig c hc)⟩

theorem splitAtNewline_append (l r : List Char)
    (hl : ∀ c ∈ l, c ≠ '\n') :
    splitAtNewline (l ++ '\n' :: r) = (l ++ ['\n'], r) := by
  induction l with
  | nil => simp [splitAtNewline]
  | cons c t ih =>
    have hc : c ≠ '\n' := hl c (List.mem_cons_self _ _)
    have iht := ih (fun x hx => hl x (List.mem_cons_of_mem _ hx))
    simp only [List.cons_append, splitAtNewline, if_neg hc, List.append_eq]
    rw [iht]

theorem dropWs_cons_true {c : Char} (h : isWs c = true) (l : List Char) :
    dropWs (c :: l) = dropWs l := by
  simp [dropWs, List.dropWhile_cons, h]

theorem dropWs_cons_false {c : Char} (h : isWs c = false) (l : List Char) :
    dropWs (c :: l) = c :: l := by
  simp [dropWs, List.dropWhile_cons, h]

theorem trim_crlf (h : Char) (m : List Char) (y : Char)
    (hh : isWs h = false) (hy : isWs y = false) :
    trim ((h :: m ++ [y]) ++ ['\r', '\n']) = h :: m ++ [y] := by
  have h1 : ((h :: m ++ [y]) ++ ['\r', '\n']).reverse =
      '\n' :: '\r' :: y :: (h :: m).reverse := by simp
  rw [trim, h1, dropWs_cons_true (by decide), dropWs_cons_true (by decide),
    dropWs_cons_false hy]
  have h2 : (y :: (h :: m).reverse).reverse = h :: (m ++ [y]) := by simp
  rw [h2]
  exact dropWs_cons_false hh (m ++ [y])

theorem splitOnCS_no_colon (b : List Char) (hb : ∀ c ∈ b, c ≠ ':') :
    splitOnCS b = [b] := by
  induction b with
  | nil => rfl
  | cons c t ih =>
    cases t with
    | nil => rfl
    | cons d t2 =>
      have hc : c ≠ ':' := hb c (List.mem_cons_self _ _)
      have hnot : ¬ (c = ':' ∧ d = ' ') := fun hcd => hc hcd.1
      rw [splitOnCS, if_neg hnot,
        ih (fun x hx => hb x (List.mem_cons_of_mem _ hx))]

theorem splitOnCS_key (k : List Char) (hk : ∀ c ∈ k, c ≠ ':')
    (b : List Char) :
    splitOnCS (k ++ ':' :: ' ' :: b) = k :: splitOnCS b := by
  induction k with
  | nil =>
    show splitOnCS (':' :: ' ' :: b) = [] :: splitOnCS b
    rw [splitOnCS, if_pos ⟨rfl, rfl⟩]
  | cons c t ih =>
    have hc : c ≠ ':' := hk c (List.mem_cons_self _ _)
    have iht := ih (fun x hx => hk x (List.mem_cons_of_mem _ hx))
    cases t with
    | nil =>
      show splitOnCS (c :: ':' :: ' ' :: b) = [c] :: splitOnCS b
      have hnot : ¬ (c = ':' ∧ (':' : Char) = ' ') := fun hcd => hc hcd.1
      simp only [List.nil_append] at iht
      rw [splitOnCS, if_neg hnot, iht]
    | cons d t2 =>
      show splitOnCS (c :: d :: (t2 ++ ':' :: ' ' :: b)) =
        (c :: d :: t2) :: splitOnCS b
      have hnot : ¬ (c = ':' ∧ d = ' ') := fun hcd => hc hcd.1
      simp only [List.cons_append] at iht
      rw [splitOnCS, if_neg hnot, iht]

theorem notWs_ne_nl {c : Char} (h : isWs c = false) : c ≠ '\n' := by
  intro he
  rw [he] at h
  exact absurd h (by decide)

theorem readHeaders_crlf (fuel : Nat) (rest : List Char)
    (acc : List (List Char × List Char)) :
    readHeaders (fuel + 1) ('\r' :: '\n' :: rest) acc = some (acc, rest) := by
  simp only [readHeaders]
  have hsplit : splitAtNewline ('\r' :: '\n' :: rest) = (['\r', '\n'], rest) := by
    simp [splitAtNewline]
  rw [hsplit]
  have htrim : trim ['\r', '\n'] = [] := by decide
  simp [htrim]

theorem readHeaders_header_line (fuel : Nat) (k v rest : List Char)
    (acc : List (List Char × List Char))
    (hk : k ≠ []) (hkc : ∀ c ∈ k, isWs c = false ∧ c ≠ ':')
    (hv : v ≠ []) (hvc : ∀ c ∈ v, isWs c = false ∧ c ≠ ':') :
    readHeaders (fuel + 1) (k ++ ':' :: ' ' :: v ++ '\r' :: '\n' :: rest)
      acc = readHeaders fuel rest ((k, v) :: acc) := by
  obtain ⟨c, k2, rfl⟩ : ∃ c k2, k = c :: k2 := by
    cases k with
    | nil => exact absurd rfl hk
    | cons c k2 => exact ⟨c, k2, rfl⟩
  obtain ⟨v2, y, rfl⟩ : ∃ v2 y, v = v2 ++ [y] := by
    rcases List.eq_nil_or_concat v with h | ⟨v2, y, h⟩
    · exact absurd h hv
    · exact ⟨v2, y, by simpa [List.concat_eq_append] using h⟩
  have hy : isWs y = false := (hvc y (by simp)).1
  have hc : isWs c = false := (hkc c (by simp)).1
  have hnl : ∀ x ∈ (c :: k2) ++ ':' :: ' ' :: (v2 ++ [y]) ++ ['\r'],
      x ≠ '\n' := by
    intro x hx
    rcases List.mem_append.mp hx with hx1 | h1
    · rcases List.mem_append.mp hx1 with hk1 | hx2
      · exact notWs_ne_nl (hkc x hk1).1
      · rcases List.mem_cons.mp hx2 with h1 | hx3
        · rw [h1]; decide
        · rcases List.mem_cons.mp hx3 with h1 | hx4
          · rw [h1]; decide
          · exact notWs_ne_nl (hvc x hx4).1
    · rw [List.mem_singleton.mp h1]; decide
  have hshape : (c :: k2) ++ ':' :: ' ' :: (v2 ++ [y]) ++ '\r' :: '\n' :: rest =
      ((c :: k2) ++ ':' :: ' ' :: (v2 ++ [y]) ++ ['\r']) ++ '\n' :: rest := by
    simp
  have hsplit : splitAtNewline
      ((c :: k2) ++ ':' :: ' ' :: (v2 ++ [y]) ++ '\r' :: '\n' :: rest) =
      (((c :: k2) ++ ':' :: ' ' :: (v2 ++ [y]) ++ ['\r']) ++ ['\n'], rest) := by
    rw [hshape, splitAtNewline_append _ _ hnl]
  have htrim : trim ((((c :: k2) ++ ':' :: ' ' :: (v2 ++ [y]) ++ ['\r'])) ++ ['\n']) =
      (c :: k2) ++ ':' :: ' ' :: (v2 ++ [y]) := by
    have he : (((c :: k2) ++ ':' :: ' ' :: (v2 ++ [y]) ++ ['\r'])) ++ ['\n'] =
        (c :: (k2 ++ ':' :: ' ' :: v2) ++ [y]) ++ ['\r', '\n'] := by
      simp
    rw [he, trim_crlf c (k2 ++ ':' :: ' ' :: v2) y hc hy]
    simp
  have hparts : splitOnCS ((c :: k2) ++ ':' :: ' ' :: (v2 ++ [y])) =
      [c :: k2, v2 ++ [y]] := by
    rw [splitOnCS_key (c :: k2) (fun x hx => (hkc x hx).2) (v2 ++ [y]),
      splitOnCS_no_colon (v2 ++ [y]) (fun x hx => (hvc x hx).2)]
  show readHeaders (fuel + 1)
    (c :: (k2 ++ ':' :: ' ' :: (v2 ++ [y]) ++ '\r' :: '\n' :: rest)) acc = _
  simp only [readHeaders]
  rw [show c :: (k2 ++ ':' :: ' ' :: (v2 ++ [y]) ++ '\r' :: '\n' :: rest) =
    (c :: k2) ++ ':' :: ' ' :: (v2 ++ [y]) ++ '\r' :: '\n' :: rest from rfl]
  rw [hsplit]
  simp only [htrim]
  rw [if_neg (by simp)]
  rw [hparts]

theorem readHeaders_encode (fuel : Nat) (p : List Char)
    (acc : List (List Char × List Char)) :
    readHeaders (fuel + 2) (encodeMessage p) acc =
      some ((contentLengthKey, natDigits p.length) :: acc, p) := by
  obtain ⟨hne, hprops⟩ := natDigits_props p.length
  have h1 := readHeaders_header_line (fuel + 1) contentLengthKey
    (natDigits p.length) ('\r' :: '\n' :: p) acc (by decide) (by decide)
    hne hprops
  calc readHeaders (fuel + 2) (encodeMessage p) acc
      = readHeaders (fuel + 1) ('\r' :: '\n' :: p)
          ((contentLengthKey, natDigits p.length) :: acc) := h1
    _ = some ((contentLengthKey, natDigits p.length) :: acc, p) :=
        readHeaders_crlf fuel p _

/-- C8: framing round-trip. Decoding the framed encoding of any payload
`p` — the bytes `Content-Length: <n>\r\n\r\n<payload>` with no other
headers, `n` the length of `p` — yields exactly `p`; and decoding still
yields `p` when a well-formed extra header line (`k ++ ": " ++ v` for any
non-empty colon-free, whitespace-free `k` and `v`) precedes the
`Content-Length` header. -/
theorem framing_round_trip (p k v : List Char)
    (hk : k ≠ []) (hkc : ∀ c ∈ k, isWs c = false ∧ c ≠ ':')
    (hv : v ≠ []) (hvc : ∀ c ∈ v, isWs c = false ∧ c ≠ ':') :
    decodeMessage (encodeMessage p) = some p ∧
    decodeMessage (k ++ ':' :: ' ' :: v ++ '\r' :: '\n' :: encodeMessage p)
      = some p := by
  constructor
  · rw [decodeMessage]
    have hge : 1 ≤ (encodeMessage p).length := by
      simp [encodeMessage, contentLengthKey]
    have hlen : (encodeMessage p).length + 1 =
        ((encodeMessage p).length - 1) + 2 := by omega
    rw [hlen, readHeaders_encode]
    simp [lookupHeader, parseNat_natDigits]
  · rw [decodeMessage]
    have h1 := readHeaders_header_line
      ((k ++ ':' :: ' ' :: v ++ '\r' :: '\n' :: encodeMessage p).length)
      k v (encodeMessage p) [] hk hkc hv hvc
    rw [h1]
    have hge : 2 ≤
        (k ++ ':' :: ' ' :: v ++ '\r' :: '\n' :: encodeMessage p).length := by
      simp [List.length_append]
      omega
    have hlen : (k ++ ':' :: ' ' :: v ++ '\r' :: '\n' ::
        encodeMessage p).length =
        ((k ++ ':' :: ' ' :: v ++ '\r' :: '\n' ::
          encodeMessage p).length - 2) + 2 := by omega
    rw [hlen, readHeaders_encode]
    simp [lookupHeader, parseNat_natDigits]

theorem framing_round_trip_witness :
    decodeMessage (encodeMessage ['h', 'i']) = some ['h', 'i'] ∧
    decodeMessage
      (['C', 'o', 'n', 't', 'e', 'n', 't', '-', 'T', 'y', 'p', 'e'] ++
        ':' :: ' ' ::
        ['a', 'p', 'p', 'l', 'i', 'c', 'a', 't', 'i', 'o', 'n', '/',
         'j', 's', 'o', 'n'] ++
        '\r' :: '\n' :: encodeMessage ['h', 'i']) = some ['h', 'i'] :=
  framing_round_trip ['h', 'i']
    ['C', 'o', 'n', 't', 'e', 'n', 't', '-', 'T', 'y', 'p', 'e']
    ['a', 'p', 'p', 'l', 'i', 'c', 'a', 't', 'i', 'o', 'n', '/',
     'j', 's', 'o', 'n']
    (by decide) (by decide) (by decide) (by decide)
